import Mathlib

/-!
Shallow embedding of the llms.txt generator pipeline
(repository zchee/llmstxt-generator).

The Go sources embedded here:
- `src/unnamed/part_000` (package generator): the data model, `GenerateLLMsTXT`,
  `processBatch`, `processURL`, `buildLLMsTxt`, `buildLLMsFullTxt`,
  `removePageSeparators`.
- `src/cmd/cmd.go` (package cmd): `normalizeURL`, `generate`, `TruncateText`.

External collaborators (Firecrawl map/scrape, LLM summarize) are modelled as
oracles: pure functions returning the outcome each call would produce.
Concurrency is modelled by explicit environments: per-item context-cancellation
observations (the `select` on `ctx.Done()` at each check site) and a per-batch
completion order describing in which order the worker goroutines appended to
the mutex-guarded result slice.  `eg.SetLimit(MaxWorkers)` only throttles
scheduling, so the worker limit has no further functional effect beyond what
the outcome and completion-order oracles already express.  The inter-batch
`time.After(BatchDelay)` wait has no functional content beyond the
cancellation check, which the environment records.
-/

namespace LLMsTxt

/-- Mirrors Go struct `ScrapedData` (part_000:140-144).  The `Metadata` map is
carried only for structural fidelity; the core logic never reads it. -/
structure ScrapedData where
  url : String
  markdown : String
  metadata : List (String × String)
deriving DecidableEq

/-- Mirrors Go struct `ProcessedURL` (part_000:146-152). -/
structure ProcessedURL where
  url : String
  title : String
  description : String
  markdown : String
  index : Nat
deriving DecidableEq

/-- Mirrors Go struct `GenerationResult` (part_000:154-159). -/
structure GenerationResult where
  llmsTxt : String
  llmsFullTxt : String
  processedCount : Nat
  totalCount : Nat
deriving DecidableEq

/-- Mirrors Go struct `GenerationOptions` (part_000:169-181).  Numeric fields
use `Nat`: `config.Validate` (config/config.go:83-109) rejects non-positive
`MaxURLs`, `BatchSize` and `MaxWorkers`, so validated configurations are
non-negative.  `FirecrawlOptions` is pass-through data for the scrape
collaborator and is absorbed into the scrape oracle. -/
structure GenerationOptions where
  model : String
  maxURLs : Nat
  outputDir : String
  noFullText : Bool
  verbose : Bool
  batchSize : Nat
  maxWorkers : Nat
  batchDelay : Nat
  timeout : Nat
  maxContentLength : Nat
deriving DecidableEq

/-- Mirrors Go struct `gollm.Prompt`: the system/user instruction pair passed
to `SummarizeContent`. -/
structure Prompt where
  system : String
  user : String
deriving DecidableEq

/-- Error produced by one item task inside a batch: either the task observed
run-level cancellation (`ctx.Err()`), or the scrape step failed
(collaborator error, nil data, or empty markdown; part_000:408-411). -/
inductive ItemError where
  | cancelled
  | scrapeFailed (uri : String)
deriving DecidableEq

/-- Fatal error of a whole `GenerateLLMsTXT` run: the discovery call failed
(part_000:306-308), discovery returned no URLs (part_000:310-312), or
run-level cancellation was observed at the inter-batch wait
(part_000:337-343, `ctx.Err()`). -/
inductive GenError where
  | mapFailed
  | noURLsFound
  | cancelled
deriving DecidableEq

/-- Oracle model of the `FirecrawlClient` interface (part_000:183-186):
each method maps its arguments to the outcome the call returns. -/
structure FirecrawlClient where
  mapWebsite : String → Nat → Except String (List String)
  scrapeURL : String → Except String ScrapedData

/-- Oracle model of the summarizer client (`gollm.SummarizerClient`):
`SummarizeContent` returns a `(title, description)` pair or an error. -/
structure SummarizerClient where
  summarizeContent : Prompt → String → Except String (String × String)

/-- Mirrors Go struct `LLMsTxtGenerator` (part_000:188-192). -/
structure LLMsTxtGenerator where
  firecrawlClient : FirecrawlClient
  openaiClient : SummarizerClient
  options : GenerationOptions

/-- Cancellation observations of one item task: the three `select` sites that
poll `ctx.Done()`, in program order — at the start of the `eg.Go` closure
(part_000:369-373), at the start of `processURL` (part_000:399-403), and
before the summarize call (part_000:414-418).  `true` means the context was
observed cancelled at that site. -/
structure ItemCancel where
  atTask : Bool
  atEntry : Bool
  beforeSummarize : Bool
deriving DecidableEq

/-- Run environment: everything the Go scheduler and context decide.
`itemCancel i` gives the cancellation observations of the task with ordinal
index `i`; `delayCancelled i` tells whether the inter-batch `select`
after the batch starting at offset `i` observes `ctx.Done()`
(part_000:337-343); `completion i` is the order (as positions into the
submission-order success list) in which the tasks of the batch starting at
offset `i` appended their results under the mutex (part_000:381-385). -/
structure RunEnv where
  itemCancel : Nat → ItemCancel
  delayCancelled : Nat → Bool
  completion : Nat → List Nat

/-- Go constant `systemPrompt` (part_000:267). -/
def systemPrompt : String :=
  "You are a helpful assistant that generates concise titles and descriptions for web pages."

/-- Go method `SystemPrompt` (part_000:277-279). -/
def SystemPrompt (_g : LLMsTxtGenerator) : String := systemPrompt

/-- Go method `UserPrompt` (part_000:281-283): `fmt.Sprintf(userPromptFmt, uri)`
with the single `%s` verb substituted. -/
def UserPrompt (_g : LLMsTxtGenerator) (uri : String) : String :=
  "Generate a 9-10 word description and a 3-4 word title of the entire page based on ALL the content one will find on the page for this url: "
    ++ uri ++
    ". This will help in a user finding the page for its intended purpose.\n\nReturn the response in JSON format:\n\x7b\n    \"title\": \"3-4 word title\",\n    \"description\": \"9-10 word description\"\n\x7d"

/-- Go method `processURL` (part_000:397-438).  The per-item
`context.WithTimeout` scope only influences which outcomes the scrape and
summarize oracles report (a deadline surfaces as a collaborator error), so it
needs no separate state here. -/
def processURL (g : LLMsTxtGenerator) (env : RunEnv) (uri : String) (index : Nat) :
    Except ItemError ProcessedURL :=
  if (env.itemCancel index).atEntry then .error .cancelled
  else
    match g.firecrawlClient.scrapeURL uri with
    | .error _ => .error (.scrapeFailed uri)
    | .ok scrapedData =>
      if scrapedData.markdown = "" then .error (.scrapeFailed uri)
      else if (env.itemCancel index).beforeSummarize then .error .cancelled
      else
        match g.openaiClient.summarizeContent ⟨SystemPrompt g, UserPrompt g uri⟩ scrapedData.markdown with
        | .error _ =>
          .ok { url := uri, title := "Page", description := "No description available",
                markdown := scrapedData.markdown, index := index }
        | .ok (title, description) =>
          .ok { url := uri, title := title, description := description,
                markdown := scrapedData.markdown, index := index }

/-- Body of the `eg.Go` closure in `processBatch` (part_000:368-388): poll the
group context, then run `processURL`. -/
def batchTask (g : LLMsTxtGenerator) (env : RunEnv) (uri : String) (index : Nat) :
    Except ItemError ProcessedURL :=
  if (env.itemCancel index).atTask then .error .cancelled
  else processURL g env uri index

/-- The outcomes of the tasks submitted by `processBatch`, in submission order:
one task per URL, tagged `startIndex + position-in-slice`
(part_000:367-389, `for i, url := range urls`). -/
def batchOutcomes (g : LLMsTxtGenerator) (env : RunEnv) :
    List String → Nat → List (Except ItemError ProcessedURL)
  | [], _ => []
  | u :: us, idx => batchTask g env u idx :: batchOutcomes g env us (idx + 1)

/-- First error among the task outcomes, in submission order.  `eg.Wait`
returns some task's non-nil error whenever one exists; which one is
scheduling-dependent, and the orchestrator only logs it, so the choice of
representative is unobservable. -/
def firstError {ε α : Type} : List (Except ε α) → Option ε
  | [] => none
  | .error e :: _ => some e
  | .ok _ :: rest => firstError rest

/-- The successful results among the task outcomes, in submission order. -/
def okResults {ε α : Type} : List (Except ε α) → List α
  | [] => []
  | .error _ :: rest => okResults rest
  | .ok a :: rest => a :: okResults rest

/-- Reorder a result list by a completion order (mutex append order,
part_000:381-385).  Any order that is a permutation of the positions is a
possible schedule; other values of the oracle are meaningless and leave the
list unchanged, so every reachable value is a permutation of the input. -/
def reorder {α : Type} (order : List Nat) (l : List α) : List α :=
  if order.Perm (List.range l.length) then order.filterMap (fun i => l[i]?) else l

/-- Go method `processBatch` (part_000:361-395): fan the URLs out, and if any
task errored (`eg.Wait() != nil`) drop the whole batch, otherwise return the
collected results in mutex-append order. -/
def processBatch (g : LLMsTxtGenerator) (env : RunEnv) (urls : List String) (startIndex : Nat) :
    Except ItemError (List ProcessedURL) :=
  let outcomes := batchOutcomes g env urls startIndex
  match firstError outcomes with
  | some e => .error e
  | none => .ok (reorder (env.completion startIndex) (okResults outcomes))

/-- The batch loop of `GenerateLLMsTXT` (part_000:322-344):
`for i := 0; i < len(urls); i += batchSize`.  `fuel` bounds the number of
iterations; `urls.length + 1` is enough whenever `batchSize ≥ 1`, which
`config.Validate` guarantees (Go loops forever on `batchSize = 0`). -/
def runBatchesAux (g : LLMsTxtGenerator) (env : RunEnv) (urls : List String) :
    Nat → Nat → List ProcessedURL → Except GenError (List ProcessedURL)
  | 0, _, acc => .ok acc
  | fuel + 1, i, acc =>
    if i < urls.length then
      let batch := (urls.drop i).take g.options.batchSize
      let batchResults :=
        match processBatch g env batch i with
        | .error _ => []
        | .ok results => results
      let acc' := acc ++ batchResults
      if i + g.options.batchSize < urls.length then
        if env.delayCancelled i then .error .cancelled
        else runBatchesAux g env urls fuel (i + g.options.batchSize) acc'
      else runBatchesAux g env urls fuel (i + g.options.batchSize) acc'
    else .ok acc

/-- The batch loop, started as in Go with `i = 0` and an empty accumulator. -/
def runBatches (g : LLMsTxtGenerator) (env : RunEnv) (urls : List String) :
    Except GenError (List ProcessedURL) :=
  runBatchesAux g env urls (urls.length + 1) 0 []

/-- The in-place `slices.SortFunc(allResults, cmp.Compare on Index)`
(part_000:346-348) produces a by-index-sorted permutation of its input;
insertion sort is such a sort. -/
def sortByIndex (l : List ProcessedURL) : List ProcessedURL :=
  List.insertionSort (fun a b => a.index ≤ b.index) l

/-- Concatenation of string pieces, as written sequentially into the
`strings.Builder` of the render functions. -/
def concatStrings : List String → String
  | [] => ""
  | s :: rest => s ++ concatStrings rest

/-- Go method `buildLLMsTxt` (part_000:440-456): header plus one bullet line
per result.  The `sb.Grow` pre-sizing is unobservable. -/
def buildLLMsTxt (_g : LLMsTxtGenerator) (targetURL : String) (results : List ProcessedURL) :
    String :=
  "# " ++ targetURL ++ " llms.txt\n\n" ++
    concatStrings (results.map fun result =>
      "- [" ++ result.title ++ "](" ++ result.url ++ "): " ++ result.description ++ "\n")

/-- The per-page blocks of the full-text artifact (part_000:470-472), with
the running 1-based page number `i+1`. -/
def fullTxtBlocks : Nat → List ProcessedURL → List String
  | _, [] => []
  | i, result :: rest =>
    ("<|firecrawl-page-" ++ toString (i + 1) ++ "-lllmstxt|>\n## "
      ++ result.title ++ "\n" ++ result.markdown ++ "\n\n")
      :: fullTxtBlocks (i + 1) rest

/-- Characters of the page-separator regular expression prefix
`<|firecrawl-page-`. -/
def sepHead : List Char := "<|firecrawl-page-".data

/-- Characters of the page-separator regular expression suffix
`-lllmstxt|>` followed by the newline the pattern ends with. -/
def sepTail : List Char := "-lllmstxt|>\n".data

/-- Strip a literal prefix: `some` of the remainder when `p` is a prefix. -/
def dropPrefixChars : List Char → List Char → Option (List Char)
  | [], l => some l
  | _ :: _, [] => none
  | a :: p, b :: l => if a = b then dropPrefixChars p l else none

/-- Consume a maximal run of decimal digits, returning its length and the
remainder; the regexp atom `\d+` (greedy, and deterministic here because the
pattern continues with the non-digit character `-`). -/
def takeDigits : List Char → Nat × List Char
  | [] => (0, [])
  | c :: cs =>
    if c.isDigit then
      let r := takeDigits cs
      (r.1 + 1, r.2)
    else (0, c :: cs)

/-- Try to match the regular expression
`<\|firecrawl-page-\d+-lllmstxt\|>\n` (part_000:484) at the head of the
character list, returning the remainder after the match. -/
def matchSepAt (l : List Char) : Option (List Char) :=
  match dropPrefixChars sepHead l with
  | none => none
  | some rest =>
    let r := takeDigits rest
    if r.1 = 0 then none else dropPrefixChars sepTail r.2

theorem dropPrefixChars_length {p l r : List Char} (h : dropPrefixChars p l = some r) :
    r.length + p.length = l.length := by
  induction p generalizing l with
  | nil => simp [dropPrefixChars] at h; simp [h]
  | cons a p ih =>
    cases l with
    | nil => simp [dropPrefixChars] at h
    | cons b l =>
      by_cases hab : a = b
      · simp [dropPrefixChars, hab] at h
        have := ih h
        simp [List.length_cons]
        omega
      · simp [dropPrefixChars, hab] at h

theorem takeDigits_length (l : List Char) :
    (takeDigits l).2.length + (takeDigits l).1 = l.length := by
  induction l with
  | nil => simp [takeDigits]
  | cons c cs ih =>
    by_cases hc : c.isDigit
    · simp [takeDigits, hc]
      omega
    · simp [takeDigits, hc]

theorem matchSepAt_length {l r : List Char} (h : matchSepAt l = some r) :
    r.length < l.length := by
  unfold matchSepAt at h
  cases h1 : dropPrefixChars sepHead l with
  | none => rw [h1] at h; simp at h
  | some rest =>
    rw [h1] at h
    simp only at h
    by_cases hz : (takeDigits rest).1 = 0
    · simp [hz] at h
    · simp [hz] at h
      have hd := dropPrefixChars_length h1
      have ht := takeDigits_length rest
      have hs := dropPrefixChars_length h
      have : (0:Nat) < sepHead.length := by decide
      omega

/-- The scan of `regexp.ReplaceAllString(text, "")` for the page-separator
pattern (part_000:483-486): at each position, remove a leftmost match or keep
the character and move on. -/
def stripSeps (l : List Char) : List Char :=
  match h : matchSepAt l with
  | some rest => stripSeps rest
  | none =>
    match l with
    | [] => []
    | c :: cs => c :: stripSeps cs
termination_by l.length
decreasing_by
  · exact matchSepAt_length h
  · simp

/-- Go method `removePageSeparators` (part_000:483-486). -/
def removePageSeparators (text : String) : String :=
  ⟨stripSeps text.data⟩

/-- Go method `buildLLMsFullTxt` (part_000:458-481): header plus separator,
heading and raw body per page; when `NoFullText` is set the same content is
built and the separators are then stripped from it. -/
def buildLLMsFullTxt (g : LLMsTxtGenerator) (targetURL : String) (results : List ProcessedURL) :
    String :=
  let content :=
    "# " ++ targetURL ++ " llms-full.txt\n\n" ++ concatStrings (fullTxtBlocks 0 results)
  if g.options.noFullText then removePageSeparators content else content

/-- The contiguous batch slices the loop of `GenerateLLMsTXT`
(part_000:322-324) processes: `urls[i:min(i+batchSize, len(urls))]` for
`i = 0, batchSize, 2*batchSize, ...`, with the same fuel convention as
`runBatchesAux`. -/
def batchSlicesAux (batchSize : Nat) (urls : List String) : Nat → Nat → List (List String)
  | 0, _ => []
  | fuel + 1, i =>
    if i < urls.length then
      (urls.drop i).take batchSize :: batchSlicesAux batchSize urls fuel (i + batchSize)
    else []

/-- The batch partition of a URL list, from offset 0. -/
def batchSlices (batchSize : Nat) (urls : List String) : List (List String) :=
  batchSlicesAux batchSize urls (urls.length + 1) 0

/-- The items contributed by the batches whose `processBatch` call succeeds,
in loop order; failed batches contribute nothing.  This is the per-batch
contribution of the loop body of `GenerateLLMsTXT` (part_000:328-335) with
the inter-batch cancellation check removed. -/
def successfulItemsAux (g : LLMsTxtGenerator) (env : RunEnv) (urls : List String) :
    Nat → Nat → List ProcessedURL
  | 0, _ => []
  | fuel + 1, i =>
    if i < urls.length then
      (match processBatch g env ((urls.drop i).take g.options.batchSize) i with
       | .error _ => []
       | .ok results => results)
        ++ successfulItemsAux g env urls fuel (i + g.options.batchSize)
    else []

/-- The items of all successful batches of a run over `urls`. -/
def successfulItems (g : LLMsTxtGenerator) (env : RunEnv) (urls : List String) :
    List ProcessedURL :=
  successfulItemsAux g env urls (urls.length + 1) 0

/-- The ordinal indices of the URLs whose batch succeeds: for each successful
batch starting at offset `i`, the positions `i, i+1, ...` of its URLs in the
truncated URL list. -/
def successfulIndicesAux (g : LLMsTxtGenerator) (env : RunEnv) (urls : List String) :
    Nat → Nat → List Nat
  | 0, _ => []
  | fuel + 1, i =>
    if i < urls.length then
      (match processBatch g env ((urls.drop i).take g.options.batchSize) i with
       | .error _ => []
       | .ok _ => List.range' i (min g.options.batchSize (urls.length - i)))
        ++ successfulIndicesAux g env urls fuel (i + g.options.batchSize)
    else []

/-- The ordinal indices of all URLs in successful batches of a run. -/
def successfulIndices (g : LLMsTxtGenerator) (env : RunEnv) (urls : List String) :
    List Nat :=
  successfulIndicesAux g env urls (urls.length + 1) 0

/-- The items of the successful batches in submission order: per successful
batch, the task successes as `okResults` lists them, without the
mutex-append reordering.  Spec-side reference used to state that the sorted
output is independent of completion order. -/
def okItemsSubmissionAux (g : LLMsTxtGenerator) (env : RunEnv) (urls : List String) :
    Nat → Nat → List ProcessedURL
  | 0, _ => []
  | fuel + 1, i =>
    if i < urls.length then
      (match processBatch g env ((urls.drop i).take g.options.batchSize) i with
       | .error _ => []
       | .ok _ => okResults (batchOutcomes g env ((urls.drop i).take g.options.batchSize) i))
        ++ okItemsSubmissionAux g env urls fuel (i + g.options.batchSize)
    else []

/-- The successful batches' items in submission order, over a whole run. -/
def okItemsSubmission (g : LLMsTxtGenerator) (env : RunEnv) (urls : List String) :
    List ProcessedURL :=
  okItemsSubmissionAux g env urls (urls.length + 1) 0

instance : IsTotal ProcessedURL (fun a b => a.index ≤ b.index) :=
  ⟨fun a b => Nat.le_total a.index b.index⟩

instance : IsTrans ProcessedURL (fun a b => a.index ≤ b.index) :=
  ⟨fun _ _ _ h₁ h₂ => Nat.le_trans h₁ h₂⟩

/-- The per-page blocks of the full-text artifact as they read after
separator stripping: heading line and raw body only.  Spec-side reference
definition (spec §4.4: "headings remain, only separators are stripped"),
compared against `buildLLMsFullTxt` composed with `removePageSeparators`. -/
def plainFullTxtBlocks : List ProcessedURL → List String
  | [] => []
  | result :: rest =>
    ("## " ++ result.title ++ "\n" ++ result.markdown ++ "\n\n") :: plainFullTxtBlocks rest

/-- The discovery-list truncation of `GenerateLLMsTXT` (part_000:314-316):
`if len(urls) > MaxURLs { urls = urls[:MaxURLs] }`. -/
def truncatedURLs (g : LLMsTxtGenerator) (urls : List String) : List String :=
  if urls.length > g.options.maxURLs then urls.take g.options.maxURLs else urls

/-- Go method `GenerateLLMsTXT` (part_000:301-359). -/
def GenerateLLMsTXT (g : LLMsTxtGenerator) (env : RunEnv) (targetURL : String) :
    Except GenError GenerationResult :=
  match g.firecrawlClient.mapWebsite targetURL g.options.maxURLs with
  | .error _ => .error .mapFailed
  | .ok urls =>
    if urls.length = 0 then .error .noURLsFound
    else
      let urls := truncatedURLs g urls
      match runBatches g env urls with
      | .error e => .error e
      | .ok allResults =>
        let allResults := sortByIndex allResults
        .ok { llmsTxt := buildLLMsTxt g targetURL allResults,
              llmsFullTxt := buildLLMsFullTxt g targetURL allResults,
              processedCount := allResults.length,
              totalCount := urls.length }

/-- Result of Go `net/url.Parse` as consumed by `normalizeURL`
(cmd.go:565-588): the scheme and host components, and the string
`parsedURL.String()` re-serializes to.  The parser itself is an oracle
`String → Option ParsedURL`; `none` models a parse error. -/
structure ParsedURL where
  scheme : String
  host : String
  serialized : String
deriving DecidableEq

/-- Go function `normalizeURL` (cmd.go:565-588). -/
def normalizeURL (parse : String → Option ParsedURL) (rawURL : String) :
    Except String String :=
  if rawURL = "" then .error "URL cannot be empty"
  else
    match parse rawURL with
    | none => .error "parse URL"
    | some parsedURL =>
      if parsedURL.scheme = "" then
        .error "URL must include a scheme (http:// or https://)"
      else if parsedURL.scheme ≠ "http" ∧ parsedURL.scheme ≠ "https" then
        .error "URL scheme must be http or https"
      else if parsedURL.host = "" then
        .error "URL must include a host"
      else .ok parsedURL.serialized

/-- Error of the cmd-level `generate`: the target URL failed validation
(spec kind InvalidInput), or the pipeline run itself failed. -/
inductive CmdError where
  | invalidInput
  | genFailed (e : GenError)
deriving DecidableEq

/-- The pipeline-relevant part of cmd's `generate` (cmd.go:468-516):
normalize the target URL, then run the generator on the normalized URL.
Config validation, output-directory I/O, logger setup, client construction
and the final file writes are elided; `g` stands for the generator value
built from the validated configuration, so validation failures other than
the URL are out of scope here. -/
def cmdGenerate (parse : String → Option ParsedURL) (g : LLMsTxtGenerator)
    (env : RunEnv) (rawURL : String) : Except CmdError GenerationResult :=
  match normalizeURL parse rawURL with
  | .error _ => .error .invalidInput
  | .ok targetURL =>
    match GenerateLLMsTXT g env targetURL with
    | .error e => .error (.genFailed e)
    | .ok result => .ok result

/-- Go function `TruncateText` (cmd.go:544-549).  Go strings are byte strings
and both `len(text)` and `text[:maxLength]` count bytes, so the text is a
byte list; `maxLength` is a Go `int`, hence `Int`.  `none` models the
slice-bounds panic of `text[:maxLength]` when `maxLength` is negative; the
function itself performs no bounds check. -/
def TruncateText (text : List Nat) (maxLength : Int) : Option (List Nat) :=
  if (text.length : Int) ≤ maxLength then some text
  else if 0 ≤ maxLength then some (text.take maxLength.toNat) else none

/-! ### Concrete fixtures used by witnesses and counterexamples -/

/-- An environment in which cancellation is never observed and every batch
records the submission order unchanged. -/
def quietEnv : RunEnv :=
  { itemCancel := fun _ => ⟨false, false, false⟩,
    delayCancelled := fun _ => false,
    completion := fun _ => [] }

/-- Generation options matching the defaults of `config.New`
(config/config.go:56-80), with the batch size and worker count overridable
per fixture. -/
def fixtureOpts (batchSize maxWorkers : Nat) : GenerationOptions :=
  { model := "gpt-4.1-mini", maxURLs := 20, outputDir := ".", noFullText := false,
    verbose := false, batchSize := batchSize, maxWorkers := maxWorkers,
    batchDelay := 1, timeout := 30, maxContentLength := 4000 }

/-- Scenario B of the spec: discovery returns 3 URLs, batch size 3, worker
limit 1, and the fetch of the 2nd URL fails. -/
def scenarioBGen : LLMsTxtGenerator :=
  { firecrawlClient :=
      { mapWebsite := fun _ _ => .ok ["https://ex.com/a", "https://ex.com/b", "https://ex.com/c"],
        scrapeURL := fun u =>
          if u = "https://ex.com/b" then .error "fetch failed" else .ok ⟨u, "body", []⟩ },
    openaiClient := { summarizeContent := fun _ _ => .ok ("T", "D") },
    options := fixtureOpts 3 1 }

/-- Scenario C of the spec: discovery returns 1 URL, its fetch succeeds, and
the summarize call errors. -/
def scenarioCGen : LLMsTxtGenerator :=
  { firecrawlClient :=
      { mapWebsite := fun _ _ => .ok ["https://ex.com/a"],
        scrapeURL := fun u => .ok ⟨u, "body", []⟩ },
    openaiClient := { summarizeContent := fun _ _ => .error "llm down" },
    options := fixtureOpts 10 5 }

/-- A four-URL site whose 2nd URL fails to fetch; with batch size 2 the
first batch fails and the second succeeds. -/
def scenario4Gen : LLMsTxtGenerator :=
  { firecrawlClient :=
      { mapWebsite := fun _ _ =>
          .ok ["https://ex.com/a", "https://ex.com/b", "https://ex.com/c", "https://ex.com/d"],
        scrapeURL := fun u =>
          if u = "https://ex.com/b" then .error "fetch failed" else .ok ⟨u, "body", []⟩ },
    openaiClient := { summarizeContent := fun _ _ => .ok ("T", "D") },
    options := fixtureOpts 2 2 }

/-- A single-URL site that would process cleanly, used with a cancelled
context. -/
def cancelledGen : LLMsTxtGenerator :=
  { firecrawlClient :=
      { mapWebsite := fun _ _ => .ok ["https://ex.com/a"],
        scrapeURL := fun u => .ok ⟨u, "body", []⟩ },
    openaiClient := { summarizeContent := fun _ _ => .ok ("T", "D") },
    options := fixtureOpts 10 5 }

/-- An environment whose context is cancelled throughout the run: every item
task observes cancellation and so does every inter-batch wait. -/
def cancelledEnv : RunEnv :=
  { itemCancel := fun _ => ⟨true, true, true⟩,
    delayCancelled := fun _ => true,
    completion := fun _ => [] }

/-- A two-URL site processed with batch size 1, so that an inter-batch wait
occurs between the two batches. -/
def cancelDelayGen : LLMsTxtGenerator :=
  { firecrawlClient :=
      { mapWebsite := fun _ _ => .ok ["https://ex.com/a", "https://ex.com/b"],
        scrapeURL := fun u => .ok ⟨u, "body", []⟩ },
    openaiClient := { summarizeContent := fun _ _ => .ok ("T", "D") },
    options := fixtureOpts 1 1 }

/-- An environment cancelled only at the inter-batch waits. -/
def cancelDelayEnv : RunEnv :=
  { itemCancel := fun _ => ⟨false, false, false⟩,
    delayCancelled := fun _ => true,
    completion := fun _ => [] }

/-- An environment that appends each batch's two results in reverse
completion order. -/
def revCompletionEnv : RunEnv :=
  { itemCancel := fun _ => ⟨false, false, false⟩,
    delayCancelled := fun _ => false,
    completion := fun _ => [1, 0] }

/-! ### Helper lemmas -/

deriving instance DecidableEq for Except

theorem firstError_eq_some_of_mem {ε α : Type} {l : List (Except ε α)}
    (h : ∃ o ∈ l, ∃ e, o = .error e) : ∃ e, firstError l = some e := by
  induction l with
  | nil => simp at h
  | cons o rest ih =>
    cases o with
    | error e => exact ⟨e, rfl⟩
    | ok a =>
      rcases h with ⟨o, ho, e, hoe⟩
      rcases List.mem_cons.mp ho with h1 | h1
      · rw [h1] at hoe; cases hoe
      · exact ih ⟨o, h1, e, hoe⟩

theorem filterMap_getElem_range {α : Type} (l : List α) :
    (List.range l.length).filterMap (fun i => l[i]?) = l := by
  induction l with
  | nil => simp
  | cons a t ih =>
    rw [List.length_cons, List.range_succ_eq_map, List.filterMap_cons]
    simp only [List.getElem?_cons_zero, List.filterMap_map]
    have hc : ((fun i => (a :: t)[i]?) ∘ Nat.succ) = (fun i => t[i]?) := by
      funext i
      simp
    rw [hc, ih]

theorem reorder_perm {α : Type} (order : List Nat) (l : List α) :
    (reorder order l).Perm l := by
  unfold reorder
  split
  · rename_i h
    have h1 : (order.filterMap fun i => l[i]?).Perm
        ((List.range l.length).filterMap fun i => l[i]?) := h.filterMap _
    rw [filterMap_getElem_range] at h1
    exact h1
  · exact List.Perm.refl l

theorem batchOutcomes_length (g : LLMsTxtGenerator) (env : RunEnv)
    (urls : List String) (idx : Nat) :
    (batchOutcomes g env urls idx).length = urls.length := by
  induction urls generalizing idx with
  | nil => rfl
  | cons u us ih => simp [batchOutcomes, ih]

theorem okResults_length_of_none {ε α : Type} {l : List (Except ε α)}
    (h : firstError l = none) : (okResults l).length = l.length := by
  induction l with
  | nil => rfl
  | cons o rest ih =>
    cases o with
    | error e => simp [firstError] at h
    | ok a =>
      rw [firstError] at h
      simp [okResults, ih h]

theorem processBatch_ok_spec {g : LLMsTxtGenerator} {env : RunEnv}
    {urls : List String} {startIndex : Nat} {r : List ProcessedURL}
    (h : processBatch g env urls startIndex = .ok r) :
    firstError (batchOutcomes g env urls startIndex) = none ∧
    r.Perm (okResults (batchOutcomes g env urls startIndex)) := by
  simp only [processBatch] at h
  cases hfe : firstError (batchOutcomes g env urls startIndex) with
  | some e => rw [hfe] at h; cases h
  | none =>
    rw [hfe] at h
    refine ⟨rfl, ?_⟩
    cases h
    exact reorder_perm _ _

theorem processBatch_ok_length {g : LLMsTxtGenerator} {env : RunEnv}
    {urls : List String} {startIndex : Nat} {r : List ProcessedURL}
    (h : processBatch g env urls startIndex = .ok r) :
    r.length = urls.length := by
  obtain ⟨hfe, hperm⟩ := processBatch_ok_spec h
  rw [hperm.length_eq, okResults_length_of_none hfe, batchOutcomes_length]

theorem runBatchesAux_ok_length {g : LLMsTxtGenerator} {env : RunEnv}
    {urls : List String} {fuel : Nat} : ∀ {i : Nat} {acc res : List ProcessedURL},
    runBatchesAux g env urls fuel i acc = .ok res →
    res.length ≤ acc.length + (urls.length - i) := by
  induction fuel with
  | zero =>
    intro i acc res h
    cases h
    omega
  | succ fuel ih =>
    intro i acc res h
    rw [runBatchesAux] at h
    by_cases hi : i < urls.length
    · rw [if_pos hi] at h
      simp only at h
      set br := (match processBatch g env ((urls.drop i).take g.options.batchSize) i with
        | .error _ => ([] : List ProcessedURL)
        | .ok results => results) with hbr
      have hbrlen : br.length ≤ min g.options.batchSize (urls.length - i) := by
        rw [hbr]
        cases hpb : processBatch g env ((urls.drop i).take g.options.batchSize) i with
        | error e => simp
        | ok results =>
          simp only
          rw [processBatch_ok_length hpb]
          simp [Nat.min_comm]
      by_cases hnext : i + g.options.batchSize < urls.length
      · rw [if_pos hnext] at h
        by_cases hdc : env.delayCancelled i = true
        · rw [if_pos hdc] at h; cases h
        · rw [if_neg hdc] at h
          have := ih h
          rw [List.length_append] at this
          omega
      · rw [if_neg hnext] at h
        have := ih h
        rw [List.length_append] at this
        omega
    · rw [if_neg hi] at h
      cases h
      omega

theorem truncatedURLs_length_le (g : LLMsTxtGenerator) (urls : List String) :
    (truncatedURLs g urls).length ≤ g.options.maxURLs := by
  unfold truncatedURLs
  split
  · rw [List.length_take]
    omega
  · rename_i h
    omega

/-- Case analysis of a successful `GenerateLLMsTXT` run: discovery succeeded
with a non-empty list, the batch loop returned without observing
cancellation, and the result record is assembled from the sorted items. -/
theorem generate_ok_iff {g : LLMsTxtGenerator} {env : RunEnv} {targetURL : String}
    {r : GenerationResult} :
    GenerateLLMsTXT g env targetURL = .ok r ↔
    ∃ urls, g.firecrawlClient.mapWebsite targetURL g.options.maxURLs = .ok urls ∧
      urls.length ≠ 0 ∧
      ∃ allResults, runBatches g env (truncatedURLs g urls) = .ok allResults ∧
        r = { llmsTxt := buildLLMsTxt g targetURL (sortByIndex allResults),
              llmsFullTxt := buildLLMsFullTxt g targetURL (sortByIndex allResults),
              processedCount := (sortByIndex allResults).length,
              totalCount := (truncatedURLs g urls).length } := by
  unfold GenerateLLMsTXT
  cases hm : g.firecrawlClient.mapWebsite targetURL g.options.maxURLs with
  | error e => simp
  | ok urls =>
    by_cases hz : urls.length = 0
    · have hnil : urls = [] := List.length_eq_zero.mp hz
      subst hnil
      simp
    · cases hr : runBatches g env (truncatedURLs g urls) with
      | error e =>
        simp [hz, hr]
      | ok allResults =>
        simp [hz, hr]
        constructor
        · intro h
          exact ⟨fun he => hz (by simp [he]), h.symm⟩
        · intro h
          exact h.2.symm

theorem runBatchesAux_no_cancel {g : LLMsTxtGenerator} {env : RunEnv} {urls : List String}
    (hnc : ∀ j, env.delayCancelled j = false) :
    ∀ fuel i acc, runBatchesAux g env urls fuel i acc =
      .ok (acc ++ successfulItemsAux g env urls fuel i) := by
  intro fuel
  induction fuel with
  | zero => intro i acc; simp [runBatchesAux, successfulItemsAux]
  | succ fuel ih =>
    intro i acc
    rw [runBatchesAux, successfulItemsAux]
    by_cases hi : i < urls.length
    · simp only [if_pos hi]
      by_cases hnext : i + g.options.batchSize < urls.length
      · simp only [if_pos hnext, hnc i, Bool.false_eq_true, if_false]
        rw [ih]
        simp [List.append_assoc]
      · simp only [if_neg hnext]
        rw [ih]
        simp [List.append_assoc]
    · simp [if_neg hi]

theorem runBatches_no_cancel {g : LLMsTxtGenerator} {env : RunEnv} {urls : List String}
    (hnc : ∀ j, env.delayCancelled j = false) :
    runBatches g env urls = .ok (successfulItems g env urls) := by
  unfold runBatches successfulItems
  simpa using runBatchesAux_no_cancel hnc (urls.length + 1) 0 []

theorem runBatchesAux_cancelled {g : LLMsTxtGenerator} {env : RunEnv} {urls : List String}
    (hbs : 0 < g.options.batchSize) :
    ∀ fuel i (acc : List ProcessedURL), urls.length ≤ i + fuel →
    (∃ k, i + k * g.options.batchSize + g.options.batchSize < urls.length ∧
      env.delayCancelled (i + k * g.options.batchSize) = true) →
    runBatchesAux g env urls fuel i acc = .error .cancelled := by
  intro fuel
  induction fuel with
  | zero =>
    intro i acc hfuel ⟨k, hk, _⟩
    have h1 : i ≤ i + k * g.options.batchSize := Nat.le_add_right _ _
    omega
  | succ fuel ih =>
    intro i acc hfuel ⟨k, hk, hdc⟩
    have hi : i < urls.length := by
      have h1 : i ≤ i + k * g.options.batchSize := Nat.le_add_right _ _
      omega
    rw [runBatchesAux, if_pos hi]
    cases k with
    | zero =>
      simp only [Nat.zero_mul, Nat.add_zero] at hk hdc
      rw [if_pos hk, hdc]
      simp
    | succ k =>
      have hmul : (k + 1) * g.options.batchSize
          = k * g.options.batchSize + g.options.batchSize := Nat.succ_mul _ _
      have hnext : i + g.options.batchSize < urls.length := by omega
      rw [if_pos hnext]
      by_cases hdci : env.delayCancelled i = true
      · rw [hdci]; simp
      · simp only [Bool.not_eq_true] at hdci
        rw [hdci]
        simp only [Bool.false_eq_true, if_false]
        apply ih
        · omega
        · refine ⟨k, by omega, ?_⟩
          have h2 : i + g.options.batchSize + k * g.options.batchSize
              = i + (k + 1) * g.options.batchSize := by omega
          rw [h2]
          exact hdc

theorem runBatches_cancelled {g : LLMsTxtGenerator} {env : RunEnv} {urls : List String}
    (hbs : 0 < g.options.batchSize)
    (h : ∃ k, k * g.options.batchSize + g.options.batchSize < urls.length ∧
      env.delayCancelled (k * g.options.batchSize) = true) :
    runBatches g env urls = .error .cancelled := by
  unfold runBatches
  apply runBatchesAux_cancelled hbs (urls.length + 1) 0 [] (by omega)
  simpa using h

theorem generate_runBatches_error {g : LLMsTxtGenerator} {env : RunEnv}
    {targetURL : String} {urls : List String} {e : GenError}
    (hm : g.firecrawlClient.mapWebsite targetURL g.options.maxURLs = .ok urls)
    (hne : urls.length ≠ 0)
    (hr : runBatches g env (truncatedURLs g urls) = .error e) :
    GenerateLLMsTXT g env targetURL = .error e := by
  unfold GenerateLLMsTXT
  rw [hm]
  simp [hne, hr]

theorem batchSlicesAux_eq_nil {bs : Nat} {urls : List String}
    (fuel i : Nat) (h : urls.length ≤ i) : batchSlicesAux bs urls fuel i = [] := by
  cases fuel <;> simp [batchSlicesAux, Nat.not_lt.mpr h]

theorem batchSlicesAux_ne_nil {bs : Nat} {urls : List String} {fuel i : Nat} :
    batchSlicesAux bs urls fuel i ≠ [] ↔ 0 < fuel ∧ i < urls.length := by
  cases fuel <;> by_cases hi : i < urls.length <;> simp [batchSlicesAux, hi]

theorem batchSlicesAux_flatten {bs : Nat} {urls : List String} (hbs : 0 < bs) :
    ∀ fuel i, urls.length ≤ i + fuel →
    (batchSlicesAux bs urls fuel i).flatten = urls.drop i := by
  intro fuel
  induction fuel with
  | zero =>
    intro i h
    have hd : urls.drop i = [] := List.drop_eq_nil_of_le (by omega)
    simp [batchSlicesAux, hd]
  | succ fuel ih =>
    intro i h
    rw [batchSlicesAux]
    by_cases hi : i < urls.length
    · rw [if_pos hi, List.flatten_cons, ih (i + bs) (by omega)]
      have hd : (urls.drop i).drop bs = urls.drop (i + bs) := by
        rw [List.drop_drop, Nat.add_comm]
      rw [← hd]
      exact List.take_append_drop bs (urls.drop i)
    · rw [if_neg hi]
      have hd : urls.drop i = [] := List.drop_eq_nil_of_le (by omega)
      simp [batchSlicesAux, hd]

theorem batchSlicesAux_length_le {bs : Nat} {urls : List String} :
    ∀ fuel i b, b ∈ batchSlicesAux bs urls fuel i → b.length ≤ bs := by
  intro fuel
  induction fuel with
  | zero => intro i b hb; simp [batchSlicesAux] at hb
  | succ fuel ih =>
    intro i b hb
    rw [batchSlicesAux] at hb
    by_cases hi : i < urls.length
    · rw [if_pos hi] at hb
      rcases List.mem_cons.mp hb with h | h
      · rw [h, List.length_take]
        exact Nat.min_le_left _ _
      · exact ih _ _ h
    · rw [if_neg hi] at hb; simp at hb

theorem batchSlicesAux_dropLast {bs : Nat} {urls : List String} :
    ∀ fuel i b, b ∈ (batchSlicesAux bs urls fuel i).dropLast → b.length = bs := by
  intro fuel
  induction fuel with
  | zero => intro i b hb; simp [batchSlicesAux] at hb
  | succ fuel ih =>
    intro i b hb
    rw [batchSlicesAux] at hb
    by_cases hi : i < urls.length
    · rw [if_pos hi] at hb
      cases hrest : batchSlicesAux bs urls fuel (i + bs) with
      | nil => rw [hrest] at hb; simp at hb
      | cons s rest =>
        rw [hrest, List.dropLast_cons₂] at hb
        rcases List.mem_cons.mp hb with h | h
        · have hne : batchSlicesAux bs urls fuel (i + bs) ≠ [] := by
            rw [hrest]; simp
          have hlt : i + bs < urls.length := (batchSlicesAux_ne_nil.mp hne).2
          rw [h, List.length_take, List.length_drop]
          omega
        · rw [← hrest] at h
          exact ih _ _ h
    · rw [if_neg hi] at hb; simp at hb

theorem batchSlicesAux_dvd {bs : Nat} {urls : List String} :
    ∀ fuel i b, bs ∣ (urls.length - i) → b ∈ batchSlicesAux bs urls fuel i →
      b.length = bs := by
  intro fuel
  induction fuel with
  | zero => intro i b _ hb; simp [batchSlicesAux] at hb
  | succ fuel ih =>
    intro i b hdvd hb
    rw [batchSlicesAux] at hb
    by_cases hi : i < urls.length
    · rw [if_pos hi] at hb
      have hble : bs ≤ urls.length - i := Nat.le_of_dvd (by omega) hdvd
      rcases List.mem_cons.mp hb with h | h
      · rw [h, List.length_take, List.length_drop]
        omega
      · apply ih _ _ _ h
        have heq : urls.length - (i + bs) = (urls.length - i) - bs := by omega
        rw [heq]
        exact Nat.dvd_sub' hdvd dvd_rfl
    · rw [if_neg hi] at hb; simp at hb

theorem batchSlices_single {bs : Nat} {urls : List String} (hne : urls ≠ [])
    (hle : urls.length ≤ bs) : batchSlices bs urls = [urls] := by
  unfold batchSlices
  have hpos : 0 < urls.length := List.length_pos.mpr hne
  rw [batchSlicesAux, if_pos hpos, List.drop_zero, List.take_of_length_le hle,
    batchSlicesAux_eq_nil _ _ (by omega)]

theorem digitChar_isDigit {m : Nat} (h : m < 10) : (Nat.digitChar m).isDigit = true := by
  interval_cases m <;> decide

theorem toDigitsCore_digits : ∀ fuel n (acc : List Char), (∀ c ∈ acc, c.isDigit = true) →
    ∀ c ∈ Nat.toDigitsCore 10 fuel n acc, c.isDigit = true := by
  intro fuel
  induction fuel with
  | zero => intro n acc hacc c hc; simp only [Nat.toDigitsCore] at hc; exact hacc c hc
  | succ fuel ih =>
    intro n acc hacc c hc
    have hd : ((n % 10).digitChar).isDigit = true := digitChar_isDigit (Nat.mod_lt _ (by omega))
    simp only [Nat.toDigitsCore] at hc
    by_cases hz : n / 10 = 0
    · rw [if_pos hz] at hc
      rcases List.mem_cons.mp hc with h | h
      · rw [h]; exact hd
      · exact hacc _ h
    · rw [if_neg hz] at hc
      refine ih _ _ ?_ c hc
      intro c2 hc2
      rcases List.mem_cons.mp hc2 with h | h
      · rw [h]; exact hd
      · exact hacc _ h

theorem toDigitsCore_length_lt : ∀ fuel n (acc : List Char), 0 < fuel →
    acc.length < (Nat.toDigitsCore 10 fuel n acc).length := by
  intro fuel
  induction fuel with
  | zero => intro n acc h; omega
  | succ fuel ih =>
    intro n acc _
    simp only [Nat.toDigitsCore]
    by_cases hz : n / 10 = 0
    · rw [if_pos hz]; simp
    · rw [if_neg hz]
      cases fuel with
      | zero => simp only [Nat.toDigitsCore]; simp
      | succ fuel2 =>
        have h1 := ih (n / 10) ((n % 10).digitChar :: acc) (by omega)
        simp only [List.length_cons] at h1
        omega

theorem repr_digits (n : Nat) : ∀ c ∈ (Nat.repr n).data, c.isDigit = true := by
  intro c hc
  exact toDigitsCore_digits (n + 1) n [] (by simp) c hc

theorem repr_ne_nil (n : Nat) : (Nat.repr n).data ≠ [] := by
  intro he
  have h := toDigitsCore_length_lt (n + 1) n [] (by omega)
  have h2 : (Nat.repr n).data = Nat.toDigitsCore 10 (n + 1) n [] := rfl
  rw [he] at h2
  rw [← h2] at h
  simp at h

theorem dropPrefixChars_append_self (p l : List Char) : dropPrefixChars p (p ++ l) = some l := by
  induction p with
  | nil => rfl
  | cons a p ih => simp [dropPrefixChars, ih]

theorem takeDigits_digits_append (ds l : List Char) (h : ∀ c ∈ ds, c.isDigit = true) :
    takeDigits (ds ++ l) = ((takeDigits l).1 + ds.length, (takeDigits l).2) := by
  induction ds with
  | nil => simp
  | cons c ds ih =>
    have hc : c.isDigit = true := h c (by simp)
    rw [List.cons_append, takeDigits]
    rw [ih (fun c2 h2 => h c2 (by simp [h2]))]
    simp [hc]
    omega

theorem matchSepAt_sep (n : Nat) (rest : List Char) :
    matchSepAt (sepHead ++ (Nat.repr n).data ++ (sepTail ++ rest)) = some rest := by
  unfold matchSepAt
  rw [List.append_assoc, dropPrefixChars_append_self]
  simp only
  rw [takeDigits_digits_append _ _ (repr_digits n)]
  have h1 : takeDigits (sepTail ++ rest) = (0, sepTail ++ rest) := by
    rw [show sepTail ++ rest = '-' :: ("lllmstxt|>\n".data ++ rest) from rfl]
    rw [takeDigits]
    simp
  rw [h1]
  simp only
  have hne : (Nat.repr n).data.length ≠ 0 := by
    intro h
    exact repr_ne_nil n (List.length_eq_zero.mp h)
  rw [if_neg (by simpa using hne)]
  exact dropPrefixChars_append_self sepTail rest

theorem stripSeps_nil : stripSeps [] = [] := by
  rw [stripSeps]
  split
  · rename_i r hr
    rw [show matchSepAt [] = none from rfl] at hr
    cases hr
  · rfl

theorem matchSepAt_cons_ne {c : Char} (cs : List Char) (h : c ≠ '<') :
    matchSepAt (c :: cs) = none := by
  unfold matchSepAt
  rw [show sepHead = '<' :: "|firecrawl-page-".data from rfl]
  rw [dropPrefixChars]
  simp [Ne.symm h]

theorem stripSeps_of_matchSepAt {l rest : List Char} (h : matchSepAt l = some rest) :
    stripSeps l = stripSeps rest := by
  rw [stripSeps]
  split
  · rename_i r hr
    rw [hr] at h
    cases h
    rfl
  · rename_i hr
    rw [hr] at h
    cases h

theorem stripSeps_cons_ne {c : Char} (cs : List Char) (h : c ≠ '<') :
    stripSeps (c :: cs) = c :: stripSeps cs := by
  rw [stripSeps]
  split
  · rename_i r hr
    rw [matchSepAt_cons_ne cs h] at hr
    cases hr
  · rfl

theorem stripSeps_append_ne {a : List Char} (x : List Char) (h : ∀ c ∈ a, c ≠ '<') :
    stripSeps (a ++ x) = a ++ stripSeps x := by
  induction a with
  | nil => simp
  | cons c a ih =>
    rw [List.cons_append, stripSeps_cons_ne _ (h c (by simp)),
      ih (fun c2 h2 => h c2 (by simp [h2]))]
    rfl

theorem matchSepAt_sep2 (n : Nat) (rest : List Char) :
    matchSepAt (sepHead ++ ((Nat.repr n).data ++ (sepTail ++ rest))) = some rest := by
  have h := matchSepAt_sep n rest
  rwa [List.append_assoc] at h

theorem stripSeps_sep_block (n : Nat) (P T : List Char) (hP : ∀ c ∈ P, c ≠ '<') :
    stripSeps (sepHead ++ ((Nat.repr n).data ++ (sepTail ++ (P ++ T))))
      = P ++ stripSeps T := by
  rw [stripSeps_of_matchSepAt (matchSepAt_sep2 n (P ++ T))]
  exact stripSeps_append_ne T hP

theorem stripSeps_fullTxtBlocks (results : List ProcessedURL)
    (h : ∀ r ∈ results, (∀ c ∈ r.title.data, c ≠ '<') ∧ (∀ c ∈ r.markdown.data, c ≠ '<')) :
    ∀ i, stripSeps (concatStrings (fullTxtBlocks i results)).data
      = (concatStrings (plainFullTxtBlocks results)).data := by
  induction results with
  | nil =>
    intro i
    rw [show (concatStrings (fullTxtBlocks i [])).data = [] from rfl]
    rw [stripSeps_nil]
    rfl
  | cons r rest ih =>
    intro i
    have hsplit : ("-lllmstxt|>\n## " : String).data
        = ("-lllmstxt|>\n" : String).data ++ ("## " : String).data := rfl
    have hdata : (concatStrings (fullTxtBlocks i (r :: rest))).data
        = sepHead ++ ((Nat.repr (i + 1)).data ++ (sepTail ++
           (("## " : String).data ++ (r.title.data ++ (("\n" : String).data
              ++ (r.markdown.data ++ ("\n\n" : String).data)))
             ++ (concatStrings (fullTxtBlocks (i + 1) rest)).data))) := by
      have htos : (toString (i + 1) : String) = Nat.repr (i + 1) := rfl
      simp [concatStrings, fullTxtBlocks, String.data_append, sepHead, sepTail, hsplit,
        htos, List.append_assoc]
    rw [hdata]
    rw [stripSeps_sep_block]
    · rw [ih (fun r2 h2 => h r2 (by simp [h2])) (i + 1)]
      simp [plainFullTxtBlocks, concatStrings, String.data_append, List.append_assoc]
    · intro c hc
      have hr := h r (by simp)
      have hlit1 : ∀ c2 ∈ ("## " : String).data, c2 ≠ '<' := by decide
      have hlit2 : ∀ c2 ∈ ("\n" : String).data, c2 ≠ '<' := by decide
      have hlit3 : ∀ c2 ∈ ("\n\n" : String).data, c2 ≠ '<' := by decide
      simp only [List.mem_append] at hc
      rcases hc with h1 | h1 | h1 | h1 | h1
      · exact hlit1 c h1
      · exact hr.1 c h1
      · exact hlit2 c h1
      · exact hr.2 c h1
      · exact hlit3 c h1

theorem processURL_ok_index {g : LLMsTxtGenerator} {env : RunEnv} {uri : String}
    {idx : Nat} {a : ProcessedURL} (h : processURL g env uri idx = .ok a) :
    a.index = idx := by
  unfold processURL at h
  split at h
  · cases h
  · split at h
    · cases h
    · split at h
      · cases h
      · split at h
        · cases h
        · split at h
          · cases h; rfl
          · cases h; rfl

theorem batchTask_ok_index {g : LLMsTxtGenerator} {env : RunEnv} {uri : String}
    {idx : Nat} {a : ProcessedURL} (h : batchTask g env uri idx = .ok a) :
    a.index = idx := by
  unfold batchTask at h
  split at h
  · cases h
  · exact processURL_ok_index h

theorem okResults_map_index {g : LLMsTxtGenerator} {env : RunEnv} :
    ∀ (us : List String) (idx : Nat),
    firstError (batchOutcomes g env us idx) = none →
    (okResults (batchOutcomes g env us idx)).map ProcessedURL.index
      = List.range' idx us.length := by
  intro us
  induction us with
  | nil => intro idx _; rfl
  | cons u us ih =>
    intro idx hfe
    rw [batchOutcomes] at hfe ⊢
    cases ht : batchTask g env u idx with
    | error e => rw [ht] at hfe; simp [firstError] at hfe
    | ok a =>
      rw [ht] at hfe
      rw [firstError] at hfe
      rw [okResults, List.map_cons, batchTask_ok_index ht, ih (idx + 1) hfe]
      rw [List.length_cons, List.range'_succ]

theorem processBatch_error_iff {g : LLMsTxtGenerator} {env : RunEnv}
    {us : List String} {i : Nat} {e : ItemError} :
    processBatch g env us i = .error e ↔ firstError (batchOutcomes g env us i) = some e := by
  constructor
  · intro h
    simp only [processBatch] at h
    cases hfe : firstError (batchOutcomes g env us i) with
    | some e2 => rw [hfe] at h; cases h; rfl
    | none => rw [hfe] at h; cases h
  · intro h
    simp only [processBatch]
    rw [h]

theorem successfulIndicesAux_sorted {g : LLMsTxtGenerator} {env : RunEnv} {urls : List String} :
    ∀ fuel i, (successfulIndicesAux g env urls fuel i).Pairwise (· < ·) ∧
      ∀ x ∈ successfulIndicesAux g env urls fuel i, i ≤ x := by
  intro fuel
  induction fuel with
  | zero => intro i; simp [successfulIndicesAux]
  | succ fuel ih =>
    intro i
    rw [successfulIndicesAux]
    by_cases hi : i < urls.length
    · rw [if_pos hi]
      have hblock : ∀ x ∈ (match processBatch g env ((urls.drop i).take g.options.batchSize) i with
          | .error _ => ([] : List Nat)
          | .ok _ => List.range' i (min g.options.batchSize (urls.length - i))),
          i ≤ x ∧ x < i + g.options.batchSize := by
        intro x hx
        cases hpb : processBatch g env ((urls.drop i).take g.options.batchSize) i with
        | error e => rw [hpb] at hx; simp at hx
        | ok r =>
          rw [hpb] at hx
          simp only at hx
          have := List.mem_range'_1.mp hx
          omega
      have hblock_sorted : (match processBatch g env ((urls.drop i).take g.options.batchSize) i with
          | .error _ => ([] : List Nat)
          | .ok _ => List.range' i (min g.options.batchSize (urls.length - i))).Pairwise (· < ·) := by
        cases hpb : processBatch g env ((urls.drop i).take g.options.batchSize) i with
        | error e => simp
        | ok r => exact List.pairwise_lt_range' _ _ 1 (by omega)
      rcases ih (i + g.options.batchSize) with ⟨hrs, hrb⟩
      constructor
      · rw [List.pairwise_append]
        refine ⟨hblock_sorted, hrs, ?_⟩
        intro a ha b hb
        have h1 := (hblock a ha).2
        have h2 := hrb b hb
        omega
      · intro x hx
        rcases List.mem_append.mp hx with h1 | h1
        · exact (hblock x h1).1
        · have := hrb x h1
          omega
    · rw [if_neg hi]
      simp

theorem okItemsSubmissionAux_map_index {g : LLMsTxtGenerator} {env : RunEnv} {urls : List String} :
    ∀ fuel i, (okItemsSubmissionAux g env urls fuel i).map ProcessedURL.index
      = successfulIndicesAux g env urls fuel i := by
  intro fuel
  induction fuel with
  | zero => intro i; rfl
  | succ fuel ih =>
    intro i
    rw [okItemsSubmissionAux, successfulIndicesAux]
    by_cases hi : i < urls.length
    · rw [if_pos hi, if_pos hi, List.map_append, ih]
      congr 1
      cases hpb : processBatch g env ((urls.drop i).take g.options.batchSize) i with
      | error e => rfl
      | ok r =>
        simp only
        have hfe := (processBatch_ok_spec hpb).1
        rw [okResults_map_index _ _ hfe]
        rw [List.length_take, List.length_drop]
    · rw [if_neg hi, if_neg hi]
      rfl

theorem runBatchesAux_ok_eq {g : LLMsTxtGenerator} {env : RunEnv} {urls : List String} :
    ∀ {fuel i acc res}, runBatchesAux g env urls fuel i acc = .ok res →
    res = acc ++ successfulItemsAux g env urls fuel i := by
  intro fuel
  induction fuel with
  | zero =>
    intro i acc res h
    cases h
    exact (List.append_nil acc).symm
  | succ fuel ih =>
    intro i acc res h
    rw [runBatchesAux] at h
    rw [successfulItemsAux]
    by_cases hi : i < urls.length
    · rw [if_pos hi] at h
      rw [if_pos hi]
      simp only at h
      by_cases hnext : i + g.options.batchSize < urls.length
      · rw [if_pos hnext] at h
        by_cases hdc : env.delayCancelled i = true
        · rw [if_pos hdc] at h; cases h
        · rw [if_neg hdc] at h
          rw [ih h, List.append_assoc]
      · rw [if_neg hnext] at h
        rw [ih h, List.append_assoc]
    · rw [if_neg hi] at h
      rw [if_neg hi]
      cases h
      exact (List.append_nil acc).symm

theorem successfulItemsAux_perm_submission {g : LLMsTxtGenerator} {env : RunEnv}
    {urls : List String} :
    ∀ fuel i, (successfulItemsAux g env urls fuel i).Perm
      (okItemsSubmissionAux g env urls fuel i) := by
  intro fuel
  induction fuel with
  | zero => intro i; exact List.Perm.refl _
  | succ fuel ih =>
    intro i
    rw [successfulItemsAux, okItemsSubmissionAux]
    by_cases hi : i < urls.length
    · rw [if_pos hi, if_pos hi]
      refine List.Perm.append ?_ (ih (i + g.options.batchSize))
      cases hpb : processBatch g env ((urls.drop i).take g.options.batchSize) i with
      | error e => exact List.Perm.refl _
      | ok r =>
        simp only
        exact (processBatch_ok_spec hpb).2
    · rw [if_neg hi, if_neg hi]

theorem eq_of_perm_sorted_index : ∀ {l₁ l₂ : List ProcessedURL}, l₁.Perm l₂ →
    l₁.Pairwise (fun a b => a.index ≤ b.index) →
    l₂.Pairwise (fun a b => a.index ≤ b.index) →
    (l₁.map ProcessedURL.index).Nodup → l₁ = l₂ := by
  intro l₁
  induction l₁ with
  | nil =>
    intro l₂ hp _ _ _
    exact (List.Perm.eq_nil hp.symm).symm
  | cons a t ih =>
    intro l₂ hp hs₁ hs₂ hn
    cases l₂ with
    | nil => simpa using hp
    | cons b t₂ =>
      rcases List.pairwise_cons.mp hs₁ with ⟨ha, ht⟩
      rcases List.pairwise_cons.mp hs₂ with ⟨hb, ht₂⟩
      have hn2 : (∀ x ∈ t, ¬x.index = a.index) ∧ (t.map ProcessedURL.index).Nodup := by
        simpa using hn
      have hab : a = b := by
        have hbmem : b ∈ a :: t := hp.mem_iff.mpr (by simp)
        rcases List.mem_cons.mp hbmem with h1 | h1
        · exact h1.symm
        · have hamem : a ∈ b :: t₂ := hp.mem_iff.mp (by simp)
          rcases List.mem_cons.mp hamem with h2 | h2
          · exact h2
          · have hle1 : a.index ≤ b.index := ha b h1
            have hle2 : b.index ≤ a.index := hb a h2
            have hidx : b.index = a.index := by omega
            exact absurd hidx (hn2.1 b h1)
      subst hab
      have hteq : t = t₂ := ih hp.cons_inv ht ht₂ hn2.2
      rw [hteq]

theorem batchOutcomes_itemCancel_congr {g : LLMsTxtGenerator} {env env₂ : RunEnv}
    (hic : env.itemCancel = env₂.itemCancel) :
    ∀ (us : List String) (idx : Nat),
      batchOutcomes g env us idx = batchOutcomes g env₂ us idx := by
  intro us
  induction us with
  | nil => intro idx; rfl
  | cons u us ih =>
    intro idx
    rw [batchOutcomes, batchOutcomes, ih]
    congr 1
    unfold batchTask processURL
    rw [hic]

theorem okItemsSubmissionAux_congr {g : LLMsTxtGenerator} {env env₂ : RunEnv}
    {urls : List String} (hic : env.itemCancel = env₂.itemCancel) :
    ∀ fuel i, okItemsSubmissionAux g env urls fuel i
      = okItemsSubmissionAux g env₂ urls fuel i := by
  intro fuel
  induction fuel with
  | zero => intro i; rfl
  | succ fuel ih =>
    intro i
    rw [okItemsSubmissionAux, okItemsSubmissionAux]
    by_cases hi : i < urls.length
    · rw [if_pos hi, if_pos hi, ih]
      congr 1
      cases hfe : firstError (batchOutcomes g env₂ ((urls.drop i).take g.options.batchSize) i) with
      | some e =>
        have h1 : processBatch g env ((urls.drop i).take g.options.batchSize) i = .error e := by
          simp only [processBatch]
          rw [batchOutcomes_itemCancel_congr hic, hfe]
        have h2 : processBatch g env₂ ((urls.drop i).take g.options.batchSize) i = .error e := by
          simp only [processBatch]
          rw [hfe]
        rw [h1, h2]
      | none =>
        have h1 : processBatch g env ((urls.drop i).take g.options.batchSize) i
            = .ok (reorder (env.completion i)
                (okResults (batchOutcomes g env₂ ((urls.drop i).take g.options.batchSize) i))) := by
          simp only [processBatch]
          rw [batchOutcomes_itemCancel_congr hic, hfe]
        have h2 : processBatch g env₂ ((urls.drop i).take g.options.batchSize) i
            = .ok (reorder (env₂.completion i)
                (okResults (batchOutcomes g env₂ ((urls.drop i).take g.options.batchSize) i))) := by
          simp only [processBatch]
          rw [hfe]
        rw [h1, h2]
        simp only
        rw [batchOutcomes_itemCancel_congr hic]
    · rw [if_neg hi, if_neg hi]

theorem runBatchesAux_error_congr {g : LLMsTxtGenerator} {env env₂ : RunEnv}
    {urls : List String} (hdc : env.delayCancelled = env₂.delayCancelled) :
    ∀ fuel i (acc acc₂ : List ProcessedURL) e,
      runBatchesAux g env urls fuel i acc = .error e →
      runBatchesAux g env₂ urls fuel i acc₂ = .error e := by
  intro fuel
  induction fuel with
  | zero => intro i acc acc₂ e h; cases h
  | succ fuel ih =>
    intro i acc acc₂ e h
    rw [runBatchesAux] at h ⊢
    by_cases hi : i < urls.length
    · rw [if_pos hi] at h ⊢
      simp only at h ⊢
      by_cases hnext : i + g.options.batchSize < urls.length
      · rw [if_pos hnext] at h ⊢
        by_cases hdci : env.delayCancelled i = true
        · rw [if_pos hdci] at h
          rw [hdc] at hdci
          rw [if_pos hdci]
          exact h
        · rw [if_neg hdci] at h
          rw [hdc] at hdci
          rw [if_neg hdci]
          exact ih _ _ _ _ h
      · rw [if_neg hnext] at h ⊢
        exact ih _ _ _ _ h
    · rw [if_neg hi] at h
      cases h

theorem okItemsSubmissionAux_sorted {g : LLMsTxtGenerator} {env : RunEnv}
    {urls : List String} (fuel i : Nat) :
    (okItemsSubmissionAux g env urls fuel i).Pairwise (fun a b => a.index ≤ b.index) := by
  have h := @okItemsSubmissionAux_map_index g env urls fuel i
  have hs := (@successfulIndicesAux_sorted g env urls fuel i).1
  rw [← h] at hs
  have h2 := List.pairwise_map.mp hs
  exact h2.imp (fun hab => Nat.le_of_lt hab)

theorem sortByIndex_runBatches_eq {g : LLMsTxtGenerator} {env : RunEnv}
    {urls : List String} {allResults : List ProcessedURL}
    (h : runBatches g env urls = .ok allResults) :
    sortByIndex allResults = okItemsSubmission g env urls := by
  have heq : allResults = successfulItemsAux g env urls (urls.length + 1) 0 := by
    have h2 := runBatchesAux_ok_eq h
    simpa using h2
  have hperm : (sortByIndex allResults).Perm (okItemsSubmission g env urls) := by
    refine ((List.perm_insertionSort _ allResults).trans ?_)
    rw [heq]
    exact successfulItemsAux_perm_submission _ _
  have hs1 : (sortByIndex allResults).Pairwise (fun a b => a.index ≤ b.index) :=
    List.sorted_insertionSort _ allResults
  have hs2 : (okItemsSubmission g env urls).Pairwise (fun a b => a.index ≤ b.index) :=
    okItemsSubmissionAux_sorted _ _
  have hnodup : ((sortByIndex allResults).map ProcessedURL.index).Nodup := by
    have hn2 : ((okItemsSubmission g env urls).map ProcessedURL.index).Nodup := by
      rw [okItemsSubmission, okItemsSubmissionAux_map_index]
      exact ((successfulIndicesAux_sorted _ _).1).imp (fun hab => Nat.ne_of_lt hab)
    exact ((hperm.map ProcessedURL.index).nodup_iff).mpr hn2
  exact eq_of_perm_sorted_index hperm hs1 hs2 hnodup

theorem runBatches_error_congr {g : LLMsTxtGenerator} {env env₂ : RunEnv}
    {urls : List String} (hdc : env.delayCancelled = env₂.delayCancelled) {e : GenError}
    (h : runBatches g env urls = .error e) : runBatches g env₂ urls = .error e := by
  unfold runBatches at h ⊢
  exact runBatchesAux_error_congr hdc _ 0 [] [] e h

theorem okItemsSubmission_congr {g : LLMsTxtGenerator} {env env₂ : RunEnv}
    {urls : List String} (hic : env.itemCancel = env₂.itemCancel) :
    okItemsSubmission g env urls = okItemsSubmission g env₂ urls := by
  unfold okItemsSubmission
  exact okItemsSubmissionAux_congr hic _ _

theorem runBatches_completion_congr {g : LLMsTxtGenerator} {env : RunEnv}
    {urls : List String} (f₂ : Nat → List Nat) {allResults : List ProcessedURL}
    (h : runBatches g env urls = .ok allResults) :
    ∃ allResults₂, runBatches g { env with completion := f₂ } urls = .ok allResults₂ ∧
      sortByIndex allResults₂ = sortByIndex allResults := by
  cases hr₂ : runBatches g { env with completion := f₂ } urls with
  | error e =>
    have hback : runBatches g env urls = .error e :=
      @runBatches_error_congr g { env with completion := f₂ } env urls rfl e hr₂
    rw [h] at hback
    cases hback
  | ok allResults₂ =>
    refine ⟨allResults₂, rfl, ?_⟩
    rw [sortByIndex_runBatches_eq hr₂, sortByIndex_runBatches_eq h]
    exact okItemsSubmission_congr rfl

theorem generate_completion_congr (g : LLMsTxtGenerator) (env : RunEnv)
    (f₂ : Nat → List Nat) (targetURL : String) :
    GenerateLLMsTXT g { env with completion := f₂ } targetURL
      = GenerateLLMsTXT g env targetURL := by
  unfold GenerateLLMsTXT
  cases hm : g.firecrawlClient.mapWebsite targetURL g.options.maxURLs with
  | error e => rfl
  | ok urls =>
    by_cases hz : urls.length = 0
    · simp [hz]
    · cases hr : runBatches g env (truncatedURLs g urls) with
      | error e =>
        have hr₂ : runBatches g { env with completion := f₂ } (truncatedURLs g urls)
            = .error e :=
          @runBatches_error_congr g env { env with completion := f₂ }
            (truncatedURLs g urls) rfl e hr
        simp [hz, hr, hr₂]
      | ok allResults =>
        obtain ⟨allResults₂, hr₂, hsort⟩ := runBatches_completion_congr f₂ hr
        simp [hz, hr, hr₂, hsort]

/-! ### Claim theorems -/

/-- Claim C10: for `maxLength ≥ 0`, `TruncateText` returns the prefix of
length `min (len text) maxLength` — the text unchanged when it already fits —
and for negative `maxLength` the unchecked slice `text[:maxLength]` is out of
bounds (modelled as `none`), which is why the precondition is required. -/
theorem claim10_truncateText (text : List Nat) (maxLength : Int) :
    (0 ≤ maxLength →
      TruncateText text maxLength = some (text.take (min text.length maxLength.toNat)) ∧
      ((text.length : Int) ≤ maxLength → TruncateText text maxLength = some text)) ∧
    (maxLength < 0 → TruncateText text maxLength = none) := by
  unfold TruncateText
  constructor
  · intro hpos
    constructor
    · by_cases hle : (text.length : Int) ≤ maxLength
      · have hlen : text.length ≤ maxLength.toNat := by omega
        simp [hle, Nat.min_eq_left hlen, List.take_of_length_le hlen]
      · have hlen : maxLength.toNat ≤ text.length := by omega
        simp [hle, hpos, Nat.min_eq_right hlen]
    · intro hle
      simp [hle]
  · intro hneg
    have hle : ¬ (text.length : Int) ≤ maxLength := by omega
    have hpos : ¬ (0:Int) ≤ maxLength := by omega
    simp [hle, hpos]

/-- Witness for C10 at `text = [10, 20, 30]`, `maxLength = 2`. -/
theorem claim10_truncateText_witness :
    (0:Int) ≤ 2 ∧ TruncateText [10, 20, 30] 2 = some [10, 20] := by
  refine ⟨by decide, ?_⟩
  have h := (claim10_truncateText [10, 20, 30] 2).1 (by decide)
  simpa using h.1

/-- Claim C3: if any item task of a batch returns an error, `processBatch`
returns an error and therefore contributes no result items — every
`ProcessedURL` already accumulated in the batch is discarded, so a batch
yields all of its items or none. -/
theorem claim3_batch_all_or_nothing (g : LLMsTxtGenerator) (env : RunEnv)
    (urls : List String) (startIndex : Nat)
    (h : ∃ o ∈ batchOutcomes g env urls startIndex, ∃ e, o = .error e) :
    ∃ e, processBatch g env urls startIndex = .error e := by
  obtain ⟨e, he⟩ := firstError_eq_some_of_mem h
  exact ⟨e, by simp only [processBatch]; rw [he]⟩

/-- Witness for C3: Scenario B — 3 URLs, batch size 3, worker limit 1, fetch
of the 2nd URL fails; the batch returns an error, and the full run ends with
`processedCount = 0` and `totalCount = 3`. -/
theorem claim3_batch_all_or_nothing_witness :
    (∃ e, processBatch scenarioBGen quietEnv
        ["https://ex.com/a", "https://ex.com/b", "https://ex.com/c"] 0 = .error e) ∧
    GenerateLLMsTXT scenarioBGen quietEnv "https://ex.com" =
      .ok ⟨"# https://ex.com llms.txt\n\n", "# https://ex.com llms-full.txt\n\n", 0, 3⟩ := by
  refine ⟨claim3_batch_all_or_nothing scenarioBGen quietEnv _ 0
    ⟨.error (.scrapeFailed "https://ex.com/b"), by decide, _, rfl⟩, by decide⟩

/-- Claim C6: for every run whose batch loop succeeds, the accumulated items
sorted before rendering are ordered by ordinal index ascending; the indices
appearing in the output are exactly the positions (in the truncated URL
list) of the URLs whose batch succeeded; the sorted list equals the
submission-order items of the successful batches; and the whole
`GenerateLLMsTXT` output is unchanged under any completion (mutex-append)
order, so both artifacts list pages in discovery order regardless of
completion order. -/
theorem claim6_discovery_order (g : LLMsTxtGenerator) (env : RunEnv)
    (urls : List String) (allResults : List ProcessedURL)
    (h : runBatches g env urls = .ok allResults) :
    (sortByIndex allResults).Pairwise (fun a b => a.index ≤ b.index) ∧
    (sortByIndex allResults).map ProcessedURL.index = successfulIndices g env urls ∧
    sortByIndex allResults = okItemsSubmission g env urls ∧
    (∀ targetURL f₂, GenerateLLMsTXT g { env with completion := f₂ } targetURL
      = GenerateLLMsTXT g env targetURL) := by
  have h3 := sortByIndex_runBatches_eq h
  refine ⟨List.sorted_insertionSort _ allResults, ?_, h3,
    fun targetURL f₂ => generate_completion_congr g env f₂ targetURL⟩
  rw [h3, okItemsSubmission, okItemsSubmissionAux_map_index]
  rfl

/-- Witness for C6: a four-URL run with batch size 2 whose first batch fails
and whose second batch completes in reverse order; the sorted items carry
indices `[2, 3]` — the positions of the successful batch — in ascending
order, with the reverse completion order corrected. -/
theorem claim6_discovery_order_witness :
    (sortByIndex [⟨"https://ex.com/d", "T", "D", "body", 3⟩,
        ⟨"https://ex.com/c", "T", "D", "body", 2⟩]).map ProcessedURL.index = [2, 3] ∧
    sortByIndex [⟨"https://ex.com/d", "T", "D", "body", 3⟩,
        ⟨"https://ex.com/c", "T", "D", "body", 2⟩]
      = [⟨"https://ex.com/c", "T", "D", "body", 2⟩,
         ⟨"https://ex.com/d", "T", "D", "body", 3⟩] := by
  have h := claim6_discovery_order scenario4Gen revCompletionEnv
    ["https://ex.com/a", "https://ex.com/b", "https://ex.com/c", "https://ex.com/d"]
    [⟨"https://ex.com/d", "T", "D", "body", 3⟩, ⟨"https://ex.com/c", "T", "D", "body", 2⟩]
    (by decide)
  constructor
  · rw [h.2.1]
    decide
  · rw [h.2.2.1]
    decide

/-- Claim C7: when the fetch succeeds with a non-empty body but the summarize
call errors, `processURL` still returns an item — with title `"Page"`,
description `"No description available"` and the fetched body verbatim —
whereas a fetch error or an empty fetched body makes `processURL` return an
error and no item. -/
theorem claim7_summarize_fallback (g : LLMsTxtGenerator) (env : RunEnv)
    (uri : String) (index : Nat)
    (hc1 : (env.itemCancel index).atEntry = false)
    (hc2 : (env.itemCancel index).beforeSummarize = false) :
    (∀ d, g.firecrawlClient.scrapeURL uri = .ok d → d.markdown ≠ "" →
      (∃ e, g.openaiClient.summarizeContent ⟨SystemPrompt g, UserPrompt g uri⟩ d.markdown
        = .error e) →
      processURL g env uri index =
        .ok ⟨uri, "Page", "No description available", d.markdown, index⟩) ∧
    ((∃ e, g.firecrawlClient.scrapeURL uri = .error e) →
      processURL g env uri index = .error (.scrapeFailed uri)) ∧
    (∀ d, g.firecrawlClient.scrapeURL uri = .ok d → d.markdown = "" →
      processURL g env uri index = .error (.scrapeFailed uri)) := by
  refine ⟨?_, ?_, ?_⟩
  · intro d hd hmd ⟨e, he⟩
    unfold processURL
    rw [hc1, hd]
    simp [hmd, hc2, he]
  · intro ⟨e, he⟩
    unfold processURL
    rw [hc1, he]
    simp
  · intro d hd hmd
    unfold processURL
    rw [hc1, hd]
    simp [hmd]

/-- Witness for C7: Scenario C — one URL whose fetch returns `"body"` and
whose summarize call errors; the item is kept with the fallback texts, and
the run reports it as processed (`processedCount = totalCount = 1`). -/
theorem claim7_summarize_fallback_witness :
    processURL scenarioCGen quietEnv "https://ex.com/a" 0 =
      .ok ⟨"https://ex.com/a", "Page", "No description available", "body", 0⟩ ∧
    GenerateLLMsTXT scenarioCGen quietEnv "https://ex.com" =
      .ok ⟨"# https://ex.com llms.txt\n\n- [Page](https://ex.com/a): No description available\n",
           "# https://ex.com llms-full.txt\n\n<|firecrawl-page-1-lllmstxt|>\n## Page\nbody\n\n",
           1, 1⟩ := by
  refine ⟨(claim7_summarize_fallback scenarioCGen quietEnv "https://ex.com/a" 0 rfl rfl).1
    ⟨"https://ex.com/a", "body", []⟩ rfl (by decide) ⟨"llm down", rfl⟩, by decide⟩

/-- Counterexample to claim C1 as stated: in a single-batch run whose context
is cancelled throughout — every item task observes cancellation
(`processBatch` fails with `Cancelled`) and every inter-batch wait would
observe it too — `GenerateLLMsTXT` does not abort: there is no inter-batch
check after the final batch, so the run returns a `GenerationResult` with the
cancelled batch silently dropped. -/
theorem claim1_cancellation_counterexample :
    processBatch cancelledGen cancelledEnv ["https://ex.com/a"] 0 = .error .cancelled ∧
    (∀ j, cancelledEnv.delayCancelled j = true) ∧
    GenerateLLMsTXT cancelledGen cancelledEnv "https://ex.com" =
      .ok ⟨"# https://ex.com llms.txt\n\n", "# https://ex.com llms-full.txt\n\n", 0, 1⟩ :=
  ⟨by decide, fun j => rfl, by decide⟩

/-- Claim C1 (amended): run-level cancellation observed at an inter-batch
wait — equivalently, cancellation arising before or during any non-final
batch, since the still-cancelled context makes the next inter-batch check
fire — aborts the whole run with the `Cancelled` error, bypassing the
continue-to-next-batch tolerance.  Cancellation observed only during the
final batch does not abort the run: that batch is dropped like any failed
batch and a `GenerationResult` is returned (see the counterexample). -/
theorem claim1_cancellation_aborts (g : LLMsTxtGenerator) (env : RunEnv)
    (targetURL : String) (urls : List String)
    (hbs : 0 < g.options.batchSize)
    (hm : g.firecrawlClient.mapWebsite targetURL g.options.maxURLs = .ok urls)
    (hne : urls.length ≠ 0) :
    ((∃ k, k * g.options.batchSize + g.options.batchSize < (truncatedURLs g urls).length ∧
        env.delayCancelled (k * g.options.batchSize) = true) →
      GenerateLLMsTXT g env targetURL = .error .cancelled) ∧
    ((∀ j, .error .cancelled ∈
          batchOutcomes g env (((truncatedURLs g urls).drop j).take g.options.batchSize) j →
        env.delayCancelled j = true) →
      (∃ k, k * g.options.batchSize + g.options.batchSize < (truncatedURLs g urls).length ∧
        .error .cancelled ∈ batchOutcomes g env
          (((truncatedURLs g urls).drop (k * g.options.batchSize)).take g.options.batchSize)
          (k * g.options.batchSize)) →
      GenerateLLMsTXT g env targetURL = .error .cancelled) := by
  constructor
  · intro h
    exact generate_runBatches_error hm hne (runBatches_cancelled hbs h)
  · intro hcons ⟨k, hk, hmem⟩
    exact generate_runBatches_error hm hne
      (runBatches_cancelled hbs ⟨k, hk, hcons _ hmem⟩)

/-- Witness for the amended C1: a two-URL run with batch size 1 whose context
is cancelled at the inter-batch wait aborts with the `Cancelled` error. -/
theorem claim1_cancellation_aborts_witness :
    GenerateLLMsTXT cancelDelayGen cancelDelayEnv "https://ex.com" = .error .cancelled :=
  (claim1_cancellation_aborts cancelDelayGen cancelDelayEnv "https://ex.com" _
    (by decide) rfl (by decide)).1 ⟨0, by decide, rfl⟩

/-- Claim C8: building the full-text artifact with full text enabled and then
applying `removePageSeparators` yields exactly the artifact built with
`NoFullText = true`; and (provided the target, titles and bodies do not
themselves contain the separator-opening character `<`) the suppressed-mode
artifact is precisely the header plus per-page headings and bodies — only
the page-separator markers differ between the two modes. -/
theorem claim8_fulltext_roundtrip (g : LLMsTxtGenerator) (targetURL : String)
    (results : List ProcessedURL) :
    removePageSeparators
        (buildLLMsFullTxt { g with options := { g.options with noFullText := false } }
          targetURL results)
      = buildLLMsFullTxt { g with options := { g.options with noFullText := true } }
          targetURL results ∧
    ((∀ c ∈ targetURL.data, c ≠ '<') →
      (∀ r ∈ results, (∀ c ∈ r.title.data, c ≠ '<') ∧ (∀ c ∈ r.markdown.data, c ≠ '<')) →
      buildLLMsFullTxt { g with options := { g.options with noFullText := true } }
          targetURL results
        = "# " ++ targetURL ++ " llms-full.txt\n\n"
            ++ concatStrings (plainFullTxtBlocks results)) := by
  constructor
  · rfl
  · intro ht hres
    show removePageSeparators
        ("# " ++ targetURL ++ " llms-full.txt\n\n" ++ concatStrings (fullTxtBlocks 0 results))
      = _
    have hheader : ∀ c ∈ ("# " ++ targetURL ++ " llms-full.txt\n\n").data, c ≠ '<' := by
      intro c hc
      have hlit1 : ∀ c2 ∈ ("# " : String).data, c2 ≠ '<' := by decide
      have hlit2 : ∀ c2 ∈ (" llms-full.txt\n\n" : String).data, c2 ≠ '<' := by decide
      simp only [String.data_append, List.mem_append] at hc
      rcases hc with (h1 | h1) | h1
      · exact hlit1 c h1
      · exact ht c h1
      · exact hlit2 c h1
    have hdata : stripSeps
          ("# " ++ targetURL ++ " llms-full.txt\n\n"
            ++ concatStrings (fullTxtBlocks 0 results)).data
        = ("# " ++ targetURL ++ " llms-full.txt\n\n"
            ++ concatStrings (plainFullTxtBlocks results)).data := by
      rw [String.data_append, stripSeps_append_ne _ hheader,
        stripSeps_fullTxtBlocks results hres 0, ← String.data_append]
    unfold removePageSeparators
    rw [hdata]

/-- Witness for C8: a one-item result list; stripping the separator from the
full-text artifact yields exactly the header, heading and body. -/
theorem claim8_fulltext_roundtrip_witness :
    buildLLMsFullTxt { scenarioCGen with options := { scenarioCGen.options with noFullText := true } }
        "https://ex.com" [⟨"https://ex.com/a", "Page", "No description available", "body", 0⟩]
      = "# https://ex.com llms-full.txt\n\n## Page\nbody\n\n" := by
  have h := claim8_fulltext_roundtrip scenarioCGen "https://ex.com"
    [⟨"https://ex.com/a", "Page", "No description available", "body", 0⟩]
  exact (h.2 (by decide) (by decide)).trans (by decide)

/-- Claim C9: the batch loop of the orchestrator partitions the URL list
into the contiguous slices `urls[i:min(i+batchSize, len)]` at offsets
`0, batchSize, 2·batchSize, …` (`batchSlices`, the slices consumed by
`runBatchesAux` at those offsets): their concatenation is the whole list,
every batch except possibly the last has exactly `batchSize` URLs, every
batch has at most `batchSize`, a non-empty list no longer than `batchSize`
gives exactly one batch, and an exact multiple of `batchSize` leaves no
trailing short batch. -/
theorem claim9_batch_partition (bs : Nat) (urls : List String) (hbs : 0 < bs) :
    (batchSlices bs urls).flatten = urls ∧
    (∀ b ∈ (batchSlices bs urls).dropLast, b.length = bs) ∧
    (∀ b ∈ batchSlices bs urls, b.length ≤ bs) ∧
    (urls ≠ [] → urls.length ≤ bs → batchSlices bs urls = [urls]) ∧
    (bs ∣ urls.length → ∀ b ∈ batchSlices bs urls, b.length = bs) := by
  refine ⟨?_, ?_, ?_, batchSlices_single, ?_⟩
  · have h := @batchSlicesAux_flatten bs urls hbs (urls.length + 1) 0 (by omega)
    simpa using h
  · intro b hb
    exact batchSlicesAux_dropLast _ _ _ hb
  · intro b hb
    exact batchSlicesAux_length_le _ _ _ hb
  · intro hdvd b hb
    exact batchSlicesAux_dvd _ _ _ (by simpa using hdvd) hb

/-- Witness for C9: batch size 2 over four URLs — the partition concatenates
back to the list and, the length being an exact multiple, every batch has
exactly 2 URLs. -/
theorem claim9_batch_partition_witness :
    (batchSlices 2 ["a", "b", "c", "d"]).flatten = ["a", "b", "c", "d"] ∧
    (∀ b ∈ batchSlices 2 ["a", "b", "c", "d"], b.length = 2) := by
  have h := claim9_batch_partition 2 ["a", "b", "c", "d"] (by decide)
  exact ⟨h.1, h.2.2.2.2 (by decide)⟩

/-- Claim C4: when discovery succeeds with a non-empty list and run-level
cancellation is never observed, `GenerateLLMsTXT` returns a result — batch
failures are logged and skipped, never propagated — containing exactly the
items of the batches that succeeded. -/
theorem claim4_batch_failure_nonfatal (g : LLMsTxtGenerator) (env : RunEnv)
    (targetURL : String) (urls : List String)
    (hm : g.firecrawlClient.mapWebsite targetURL g.options.maxURLs = .ok urls)
    (hne : urls.length ≠ 0)
    (hnc : ∀ j, env.delayCancelled j = false) :
    GenerateLLMsTXT g env targetURL =
      .ok { llmsTxt := buildLLMsTxt g targetURL
              (sortByIndex (successfulItems g env (truncatedURLs g urls))),
            llmsFullTxt := buildLLMsFullTxt g targetURL
              (sortByIndex (successfulItems g env (truncatedURLs g urls))),
            processedCount := (sortByIndex (successfulItems g env (truncatedURLs g urls))).length,
            totalCount := (truncatedURLs g urls).length } :=
  generate_ok_iff.mpr ⟨urls, hm, hne, _, runBatches_no_cancel hnc, rfl⟩

/-- Witness for C4: a four-URL run with batch size 2 whose first batch fails
(fetch of the 2nd URL errors) still returns a result, containing exactly the
two items of the second batch (`processedCount = 2`, `totalCount = 4`). -/
theorem claim4_batch_failure_nonfatal_witness :
    GenerateLLMsTXT scenario4Gen quietEnv "https://ex.com" =
      .ok ⟨"# https://ex.com llms.txt\n\n- [T](https://ex.com/c): D\n- [T](https://ex.com/d): D\n",
           "# https://ex.com llms-full.txt\n\n<|firecrawl-page-1-lllmstxt|>\n## T\nbody\n\n<|firecrawl-page-2-lllmstxt|>\n## T\nbody\n\n",
           2, 4⟩ := by
  rw [claim4_batch_failure_nonfatal scenario4Gen quietEnv "https://ex.com" _ rfl
    (by decide) (fun j => rfl)]
  decide

/-- Claim C5: every successful run returns `processedCount ≤ totalCount`,
where `totalCount` is the length of the truncated URL list (itself at most
`MaxURLs`), and each batch contributes at most as many items as it was given
URLs. -/
theorem claim5_count_invariant (g : LLMsTxtGenerator) (env : RunEnv)
    (targetURL : String) (r : GenerationResult)
    (h : GenerateLLMsTXT g env targetURL = .ok r) :
    r.processedCount ≤ r.totalCount ∧ r.totalCount ≤ g.options.maxURLs ∧
    (∀ urls startIndex res, processBatch g env urls startIndex = .ok res →
      res.length ≤ urls.length) := by
  obtain ⟨urls, hm, hz, allResults, hrb, hr⟩ := generate_ok_iff.mp h
  have hlen : allResults.length ≤ (truncatedURLs g urls).length := by
    have h0 : runBatchesAux g env (truncatedURLs g urls)
        ((truncatedURLs g urls).length + 1) 0 [] = .ok allResults := hrb
    have := runBatchesAux_ok_length h0
    simpa using this
  have hsorted : (sortByIndex allResults).length = allResults.length :=
    (List.perm_insertionSort _ allResults).length_eq
  subst hr
  refine ⟨by simp only [hsorted]; exact hlen, truncatedURLs_length_le g urls, ?_⟩
  intro burls startIndex res hres
  exact Nat.le_of_eq (processBatch_ok_length hres)

/-- Witness for C5 at a concrete two-URL run with one failing batch. -/
theorem claim5_count_invariant_witness :
    (GenerateLLMsTXT scenarioBGen quietEnv "https://ex.com" =
      .ok ⟨"# https://ex.com llms.txt\n\n", "# https://ex.com llms-full.txt\n\n", 0, 3⟩) ∧
    (0 ≤ 3 ∧ 3 ≤ (scenarioBGen).options.maxURLs) := by
  have h : GenerateLLMsTXT scenarioBGen quietEnv "https://ex.com" =
      .ok ⟨"# https://ex.com llms.txt\n\n", "# https://ex.com llms-full.txt\n\n", 0, 3⟩ := by
    decide
  have h2 := claim5_count_invariant scenarioBGen quietEnv "https://ex.com" _ h
  exact ⟨h, h2.1, h2.2.1⟩

/-- Claim C2: a target whose parse has a missing scheme, a scheme other than
http/https, or an empty host makes the cmd-level generate fail with
InvalidInput for every generator and environment — so before any collaborator
outcome can matter — while a target that parses with scheme http or https and
a non-empty host passes `normalizeURL`. -/
theorem claim2_validation (parse : String → Option ParsedURL) (rawURL : String) :
    (∀ p, parse rawURL = some p →
      (p.scheme = "" ∨ (p.scheme ≠ "http" ∧ p.scheme ≠ "https") ∨ p.host = "") →
      ∀ g env, cmdGenerate parse g env rawURL = .error .invalidInput) ∧
    (∀ p, rawURL ≠ "" → parse rawURL = some p →
      (p.scheme = "http" ∨ p.scheme = "https") → p.host ≠ "" →
      normalizeURL parse rawURL = .ok p.serialized) := by
  constructor
  · intro p hp hbad g env
    unfold cmdGenerate normalizeURL
    by_cases hraw : rawURL = ""
    · simp [hraw]
    · rw [if_neg hraw, hp]
      rcases hbad with h1 | ⟨h2a, h2b⟩ | h3
      · simp [h1]
      · by_cases hne : p.scheme = ""
        · simp [hne]
        · simp [hne, h2a, h2b]
      · by_cases h1 : p.scheme = ""
        · simp [h1]
        · by_cases h2 : p.scheme ≠ "http" ∧ p.scheme ≠ "https"
          · simp [h1, h2]
          · simp [h1, h2, h3]
  · intro p hraw hp hscheme hhost
    unfold normalizeURL
    rw [if_neg hraw, hp]
    have h1 : ¬ p.scheme = "" := by
      rcases hscheme with h | h <;> rw [h] <;> decide
    have h2 : ¬ (p.scheme ≠ "http" ∧ p.scheme ≠ "https") := by
      rcases hscheme with h | h <;> simp [h]
    simp [h1, h2, hhost]

/-- Witness for C2: Scenario D's target `"ftp://x.com"` is rejected as
InvalidInput for an arbitrary generator and environment, and an https target
with a host passes validation. -/
theorem claim2_validation_witness :
    cmdGenerate (fun s => if s = "ftp://x.com" then some ⟨"ftp", "x.com", "ftp://x.com"⟩ else none)
        scenarioBGen quietEnv "ftp://x.com" = .error .invalidInput ∧
    normalizeURL (fun _ => some ⟨"https", "ex.com", "https://ex.com"⟩) "https://ex.com"
        = .ok "https://ex.com" := by
  constructor
  · exact (claim2_validation _ "ftp://x.com").1 ⟨"ftp", "x.com", "ftp://x.com"⟩
      (by decide) (Or.inr (Or.inl (by decide))) scenarioBGen quietEnv
  · exact (claim2_validation (fun _ => some ⟨"https", "ex.com", "https://ex.com"⟩)
      "https://ex.com").2 ⟨"https", "ex.com", "https://ex.com"⟩
      (by decide) rfl (Or.inr rfl) (by decide)

end LLMsTxt
